import Mathlib

/-!
Verification of the `tin` crate: parsing, range validation and type
auto-detection of U.S. Taxpayer Identification Numbers (SSN, ITIN, ATIN).

The Rust code (`src/lib.rs`, `src/ssn.rs`, `src/itin.rs`, `src/atin.rs`) is
embedded shallowly:

* a Rust `&str` is a `List Char`; where the code slices a string by *byte*
  index (`&full[0..3]` in `parse_components`), the UTF-8 byte width of each
  character is modelled by `charUtf8Size`;
* the `u16` / `u8` field values are `Nat`; no arithmetic in the crate can
  wrap, and the only operation sensitive to the machine-integer bound is
  `str::parse`, whose overflow check is modelled explicitly in
  `rustParseNat`;
* fallible functions return `RustResult`, whose `panic` constructor models
  an aborted (panicking) computation: the `.expect(..)` calls in
  `parse_components` and the out-of-bounds / non-character-boundary panics
  of Rust byte slicing.
-/

/-- `ParseError` of `src/lib.rs`: the four rejection reasons, each carrying
the offending raw value (the whole input string for format errors, the
numeric field value for range errors). -/
inductive ParseError where
  | InvalidFormat : List Char → ParseError
  | InvalidArea : Nat → ParseError
  | InvalidGroup : Nat → ParseError
  | InvalidSerial : Nat → ParseError
deriving DecidableEq

/-- The result of a Rust call: `Ok`, `Err`, or an aborted computation
(`panic`, produced by a failed `.expect` or an invalid byte slice). -/
inductive RustResult (α : Type) where
  | ok : α → RustResult α
  | err : ParseError → RustResult α
  | panic : RustResult α
deriving DecidableEq

/-- The ASCII digit test `b'0'..=b'9'` used by Rust's `from_str_radix`. -/
def isAsciiDigit (c : Char) : Bool := 48 ≤ c.toNat && c.toNat ≤ 57

/-- Numeric value of an ASCII digit character (`c as u32 - '0' as u32`). -/
def charToDigit (c : Char) : Nat := c.toNat - 48

/-- Value of a big-endian run of ASCII digit characters, accumulated the way
Rust's `from_str_radix` does at radix 10. -/
def digitsVal (cs : List Char) : Nat := cs.foldl (fun a c => 10 * a + charToDigit c) 0

/-- The character of the decimal digit `d` (`'0' as u32 + d`). -/
def digitChar (d : Nat) : Char := Char.ofNat (48 + d)

/-- The `w` low decimal digits of `n`, most significant first: for
`n < 10 ^ w` this is exactly the digit string Rust's formatter produces for
`n` zero-padded to width `w`. -/
def natDigitsFixed : Nat → Nat → List Char
  | 0, _ => []
  | w + 1, n => natDigitsFixed w (n / 10) ++ [digitChar (n % 10)]

/-- The number of decimal digits of `n` (1 for `n < 10`), computed with
structural recursion on a fuel argument so that it evaluates inside the
kernel; any `fuel ≥ n` gives the exact digit count. -/
def decimalLen : Nat → Nat → Nat
  | 0, _ => 1
  | fuel + 1, n => if n < 10 then 1 else decimalLen fuel (n / 10) + 1

/-- Rust's `{:0w}` decimal formatting of an unsigned integer `n`: all
decimal digits of `n`, zero-padded on the left to a minimum width of `w`
(`decimalLen n n` is the number of decimal digits of `n`). -/
def formatPad (w n : Nat) : List Char := natDigitsFixed (max w (decimalLen n n)) n

/-- `str::parse::<uN>` on a captured field: Rust's `from_str_radix(s, 10)`
succeeds exactly on a non-empty all-ASCII-digit string whose value fits the
integer type; `bound` is the type's maximum (65535 for `u16`, 255 for
`u8`). A leading `+` sign, which Rust would also accept, never occurs here:
every argument is a capture of a regex digit class. A `none` result is
surfaced by the caller's `.expect`, i.e. as a panic. -/
def rustParseNat (bound : Nat) (cs : List Char) : Option Nat :=
  if cs ≠ [] ∧ cs.all isAsciiDigit ∧ digitsVal cs ≤ bound then some (digitsVal cs) else none

/-- The regex crate's `\d` character class, as used in `TIN_PATTERN`. In
the crate's default Unicode mode `\d` is `\p{Nd}` (any Unicode decimal
digit), not only ASCII `0-9`. We model the ASCII digits together with a
representative subset of the non-ASCII `Nd` ranges (Arabic-Indic
U+0660-U+0669, Extended Arabic-Indic U+06F0-U+06F9, Devanagari
U+0966-U+096F, Fullwidth U+FF10-U+FF19); every character accepted here
genuinely matches `\d` in the Rust regex engine. -/
def regexDigit (c : Char) : Bool :=
  isAsciiDigit c
    || (0x660 ≤ c.toNat && c.toNat ≤ 0x669)
    || (0x6F0 ≤ c.toNat && c.toNat ≤ 0x6F9)
    || (0x966 ≤ c.toNat && c.toNat ≤ 0x96F)
    || (0xFF10 ≤ c.toNat && c.toNat ≤ 0xFF19)

/-- UTF-8 byte width of a character (Rust's `char::len_utf8`). -/
def charUtf8Size (c : Char) : Nat :=
  if c.toNat ≤ 0x7F then 1
  else if c.toNat ≤ 0x7FF then 2
  else if c.toNat ≤ 0xFFFF then 3
  else 4

/-- Total UTF-8 byte length of a character list (Rust's `str::len`). -/
def utf8Len (cs : List Char) : Nat := (cs.map charUtf8Size).sum

/-- The character prefix spanning exactly the first `n` UTF-8 bytes;
`none` when byte offset `n` is not a character boundary or exceeds the
string, where Rust byte slicing panics. -/
def utf8TakeBytes : List Char → Nat → Option (List Char)
  | _, 0 => some []
  | [], _ + 1 => none
  | c :: cs, n + 1 =>
    if charUtf8Size c ≤ n + 1 then
      (utf8TakeBytes cs (n + 1 - charUtf8Size c)).map (c :: ·)
    else none

/-- Drop the characters spanning the first `n` UTF-8 bytes; `none` when
byte offset `n` is not a character boundary or exceeds the string. -/
def utf8DropBytes : List Char → Nat → Option (List Char)
  | cs, 0 => some cs
  | [], _ + 1 => none
  | c :: cs, n + 1 =>
    if charUtf8Size c ≤ n + 1 then utf8DropBytes cs (n + 1 - charUtf8Size c) else none

/-- Rust byte slicing `&s[a..b]` (with `a ≤ b`): the characters between
byte offsets `a` and `b`; `none` models the byte-slice panic. -/
def utf8Slice (cs : List Char) (a b : Nat) : Option (List Char) :=
  (utf8DropBytes cs a).bind (fun r => utf8TakeBytes r (b - a))

/-- The capture groups of `TIN_PATTERN`:
`^(\d{3})-(\d{2})-(\d{4})$|^(\d{9})$` — either the three dash-separated
fields (groups 1-3) or the nine-digit run (group 4). -/
inductive TinCaptures where
  | dashed : List Char → List Char → List Char → TinCaptures
  | undashed : List Char → TinCaptures
deriving DecidableEq

/-- `Regex::captures` for `TIN_PATTERN`. The first alternate matches
exactly the 11-character dashed shape, the second the 9-character digit
run; the two alternates match disjoint inputs, so leftmost-first
alternation never has to choose. -/
def tinCaptures (s : List Char) : Option TinCaptures :=
  match s with
  | [a1, a2, a3, d1, g1, g2, d2, s1, s2, s3, s4] =>
    if regexDigit a1 && regexDigit a2 && regexDigit a3 && (d1 == '-') &&
        regexDigit g1 && regexDigit g2 && (d2 == '-') &&
        regexDigit s1 && regexDigit s2 && regexDigit s3 && regexDigit s4 then
      some (.dashed [a1, a2, a3] [g1, g2] [s1, s2, s3, s4])
    else none
  | _ =>
    if s.length == 9 && s.all regexDigit then some (.undashed s) else none

/-- `parse_components` of `src/lib.rs`: match `TIN_PATTERN` against the
input and split it into `(area, group, serial)`. `.err (.InvalidFormat s)`
is the `ok_or_else` on a failed match; `.panic` models the `.expect` calls
on `str::parse` (reachable, because `\d` also matches non-ASCII decimal
digits, which `str::parse` rejects) and the boundary panics of the byte
slices `&full[0..3]`, `&full[3..5]`, `&full[5..9]`. -/
def parse_components (s : List Char) : RustResult (Nat × Nat × Nat) :=
  match tinCaptures s with
  | none => .err (.InvalidFormat s)
  | some (.dashed a g se) =>
    match rustParseNat 65535 a, rustParseNat 255 g, rustParseNat 65535 se with
    | some av, some gv, some sv => .ok (av, gv, sv)
    | _, _, _ => .panic
  | some (.undashed full) =>
    match utf8Slice full 0 3, utf8Slice full 3 5, utf8Slice full 5 9 with
    | some a, some g, some se =>
      match rustParseNat 65535 a, rustParseNat 255 g, rustParseNat 65535 se with
      | some av, some gv, some sv => .ok (av, gv, sv)
      | _, _, _ => .panic
    | _, _, _ => .panic

/-- `Ssn` of `src/ssn.rs` (fields `area: u16`, `group: u8`, `serial: u16`). -/
structure Ssn where
  area : Nat
  group : Nat
  serial : Nat
deriving DecidableEq

/-- `Ssn::validate`: area `001-665` / `667-899`, then group `01-99`, then
serial `0001-9999`, short-circuiting in that order. -/
def Ssn.validate (area group serial : Nat) : RustResult Unit :=
  if area = 0 ∨ area = 666 ∨ 899 < area then .err (.InvalidArea area)
  else if group = 0 ∨ 99 < group then .err (.InvalidGroup group)
  else if serial = 0 ∨ 9999 < serial then .err (.InvalidSerial serial)
  else .ok ()

/-- `Ssn::new`: validate the components, then construct. -/
def Ssn.new (area group serial : Nat) : RustResult Ssn :=
  match Ssn.validate area group serial with
  | .ok _ => .ok ⟨area, group, serial⟩
  | .err e => .err e
  | .panic => .panic

/-- `impl FromStr for Ssn`: `parse_components`, then `Ssn::new`. -/
def Ssn.from_str (s : List Char) : RustResult Ssn :=
  match parse_components s with
  | .ok (area, group, serial) => Ssn.new area group serial
  | .err e => .err e
  | .panic => .panic

/-- `impl Display for Ssn`: `write!(f, "{:03}-{:02}-{:04}", ..)`. -/
def Ssn.display (v : Ssn) : List Char :=
  formatPad 3 v.area ++ '-' :: (formatPad 2 v.group ++ '-' :: formatPad 4 v.serial)

/-- `impl Debug for Ssn`: `write!(f, "Ssn(XXX-XX-{:04})", self.serial)`. -/
def Ssn.debug (v : Ssn) : List Char :=
  "Ssn(XXX-XX-".data ++ (formatPad 4 v.serial ++ ")".data)

/-- `Itin` of `src/itin.rs` (fields `area: u16`, `group: u8`, `serial: u16`). -/
structure Itin where
  area : Nat
  group : Nat
  serial : Nat
deriving DecidableEq

/-- `is_valid_itin_group` of `src/itin.rs`:
`matches!(group, 50..=65 | 70..=88 | 90..=92 | 94..=99)`. -/
def is_valid_itin_group (group : Nat) : Bool :=
  (50 ≤ group && group ≤ 65) || (70 ≤ group && group ≤ 88) ||
    (90 ≤ group && group ≤ 92) || (94 ≤ group && group ≤ 99)

/-- `Itin::validate`: area `900-999`, then the ITIN group set, then serial
`0000-9999`, short-circuiting in that order. -/
def Itin.validate (area group serial : Nat) : RustResult Unit :=
  if ¬(900 ≤ area ∧ area ≤ 999) then .err (.InvalidArea area)
  else if ¬(is_valid_itin_group group = true) then .err (.InvalidGroup group)
  else if 9999 < serial then .err (.InvalidSerial serial)
  else .ok ()

/-- `Itin::new`: validate the components, then construct. -/
def Itin.new (area group serial : Nat) : RustResult Itin :=
  match Itin.validate area group serial with
  | .ok _ => .ok ⟨area, group, serial⟩
  | .err e => .err e
  | .panic => .panic

/-- `impl FromStr for Itin`: `parse_components`, then `Itin::new`. -/
def Itin.from_str (s : List Char) : RustResult Itin :=
  match parse_components s with
  | .ok (area, group, serial) => Itin.new area group serial
  | .err e => .err e
  | .panic => .panic

/-- `impl Display for Itin`: `write!(f, "{:03}-{:02}-{:04}", ..)`. -/
def Itin.display (v : Itin) : List Char :=
  formatPad 3 v.area ++ '-' :: (formatPad 2 v.group ++ '-' :: formatPad 4 v.serial)

/-- `impl Debug for Itin`: `write!(f, "Itin(XXX-XX-{:04})", self.serial)`. -/
def Itin.debug (v : Itin) : List Char :=
  "Itin(XXX-XX-".data ++ (formatPad 4 v.serial ++ ")".data)

/-- `Atin` of `src/atin.rs` (fields `area: u16`, `group: u8`, `serial: u16`). -/
structure Atin where
  area : Nat
  group : Nat
  serial : Nat
deriving DecidableEq

/-- `Atin::validate`: area `900-999`, then group exactly `93`, then serial
`0000-9999`, short-circuiting in that order. -/
def Atin.validate (area group serial : Nat) : RustResult Unit :=
  if ¬(900 ≤ area ∧ area ≤ 999) then .err (.InvalidArea area)
  else if group ≠ 93 then .err (.InvalidGroup group)
  else if 9999 < serial then .err (.InvalidSerial serial)
  else .ok ()

/-- `Atin::new`: validate the components, then construct. -/
def Atin.new (area group serial : Nat) : RustResult Atin :=
  match Atin.validate area group serial with
  | .ok _ => .ok ⟨area, group, serial⟩
  | .err e => .err e
  | .panic => .panic

/-- `impl FromStr for Atin`: `parse_components`, then `Atin::new`. -/
def Atin.from_str (s : List Char) : RustResult Atin :=
  match parse_components s with
  | .ok (area, group, serial) => Atin.new area group serial
  | .err e => .err e
  | .panic => .panic

/-- `impl Display for Atin`: `write!(f, "{:03}-{:02}-{:04}", ..)`. -/
def Atin.display (v : Atin) : List Char :=
  formatPad 3 v.area ++ '-' :: (formatPad 2 v.group ++ '-' :: formatPad 4 v.serial)

/-- `impl Debug for Atin`: `write!(f, "Atin(XXX-XX-{:04})", self.serial)`. -/
def Atin.debug (v : Atin) : List Char :=
  "Atin(XXX-XX-".data ++ (formatPad 4 v.serial ++ ")".data)

/-- `Tin` of `src/lib.rs`: the tagged union over the three validated
types. -/
inductive Tin where
  | Ssn : Ssn → Tin
  | Itin : Itin → Tin
  | Atin : Atin → Tin
deriving DecidableEq

/-- `Tin::area`: the area number of the wrapped value. -/
def Tin.area : Tin → Nat
  | .Ssn v => v.area
  | .Itin v => v.area
  | .Atin v => v.area

/-- `Tin::group`: the group number of the wrapped value. -/
def Tin.group : Tin → Nat
  | .Ssn v => v.group
  | .Itin v => v.group
  | .Atin v => v.group

/-- `Tin::serial`: the serial number of the wrapped value. -/
def Tin.serial : Tin → Nat
  | .Ssn v => v.serial
  | .Itin v => v.serial
  | .Atin v => v.serial

/-- `impl FromStr for Tin` of `src/lib.rs`: `parse_components`, then the
area/group dispatch (`1..=665 | 667..=899` to SSN; `900..=999` with group
93 to ATIN; `900..=999` with an ITIN group to ITIN; otherwise
`InvalidArea` for area 0 or 666 and `InvalidGroup` for the rest). -/
def Tin.from_str (s : List Char) : RustResult Tin :=
  match parse_components s with
  | .err e => .err e
  | .panic => .panic
  | .ok (area, group, serial) =>
    if (1 ≤ area ∧ area ≤ 665) ∨ (667 ≤ area ∧ area ≤ 899) then
      match Ssn.new area group serial with
      | .ok v => .ok (.Ssn v)
      | .err e => .err e
      | .panic => .panic
    else if (900 ≤ area ∧ area ≤ 999) ∧ group = 93 then
      match Atin.new area group serial with
      | .ok v => .ok (.Atin v)
      | .err e => .err e
      | .panic => .panic
    else if (900 ≤ area ∧ area ≤ 999) ∧ is_valid_itin_group group = true then
      match Itin.new area group serial with
      | .ok v => .ok (.Itin v)
      | .err e => .err e
      | .panic => .panic
    else if area = 0 ∨ area = 666 then .err (.InvalidArea area)
    else .err (.InvalidGroup group)

/-- `impl Display for Tin`: delegates to the wrapped value. -/
def Tin.display : Tin → List Char
  | .Ssn v => v.display
  | .Itin v => v.display
  | .Atin v => v.display

/-- `impl Debug for Tin`: delegates to the wrapped value. -/
def Tin.debug : Tin → List Char
  | .Ssn v => v.debug
  | .Itin v => v.debug
  | .Atin v => v.debug

/-- The SSN row of the spec's table (§4): area in 1-665 or 667-899, group
in 1-99, serial in 1-9999. Used only to state claims. -/
abbrev SsnRanges (area group serial : Nat) : Prop :=
  ((1 ≤ area ∧ area ≤ 665) ∨ (667 ≤ area ∧ area ≤ 899)) ∧
    (1 ≤ group ∧ group ≤ 99) ∧ (1 ≤ serial ∧ serial ≤ 9999)

/-- The ITIN group set of the spec's table (§4): 50-65, 70-88, 90-92 or
94-99. Used only to state claims. -/
abbrev ItinGroupSet (group : Nat) : Prop :=
  (50 ≤ group ∧ group ≤ 65) ∨ (70 ≤ group ∧ group ≤ 88) ∨
    (90 ≤ group ∧ group ≤ 92) ∨ (94 ≤ group ∧ group ≤ 99)

/-- The ITIN row of the spec's table (§4): area in 900-999, group in the
ITIN group set, serial in 0-9999. Used only to state claims. -/
abbrev ItinRanges (area group serial : Nat) : Prop :=
  (900 ≤ area ∧ area ≤ 999) ∧ ItinGroupSet group ∧ serial ≤ 9999

/-- The ATIN row of the spec's table (§4): area in 900-999, group exactly
93, serial in 0-9999. Used only to state claims. -/
abbrev AtinRanges (area group serial : Nat) : Prop :=
  (900 ≤ area ∧ area ≤ 999) ∧ group = 93 ∧ serial ≤ 9999

/-- The spec's normalization to the dashed canonical form: a dash-free
(nine-character) input gains the two dashes, a dashed input is already
canonical. Used only to state the round-trip claim. -/
def normalizeDashed (s : List Char) : List Char :=
  if s.length = 9 then s.take 3 ++ '-' :: ((s.drop 3).take 2 ++ '-' :: s.drop 5) else s

/-- A dashed TIN string whose digits are the Arabic-Indic digits U+0660
U+0660 U+0661 followed by ASCII `-45-6789`: the regex `\d` class matches
it, but `str::parse::<u16>` rejects the non-ASCII area field. -/
def unicodeDigitInput : List Char :=
  [Char.ofNat 0x660, Char.ofNat 0x660, Char.ofNat 0x661, '-', '4', '5', '-', '6', '7', '8', '9']

/-! ## Digit and fixed-width rendering lemmas -/

theorem digitsVal_nil : digitsVal [] = 0 := rfl

theorem digitsVal_concat (cs : List Char) (c : Char) :
    digitsVal (cs ++ [c]) = 10 * digitsVal cs + charToDigit c := by
  simp [digitsVal, List.foldl_append]

theorem charToDigit_lt {c : Char} (h : isAsciiDigit c = true) : charToDigit c < 10 := by
  simp only [isAsciiDigit, Bool.and_eq_true, decide_eq_true_eq] at h
  unfold charToDigit
  omega

theorem charToDigit_digitChar {d : Nat} (h : d < 10) : charToDigit (digitChar d) = d := by
  interval_cases d <;> decide

theorem digitChar_charToDigit {c : Char} (h : isAsciiDigit c = true) :
    digitChar (charToDigit c) = c := by
  simp only [isAsciiDigit, Bool.and_eq_true, decide_eq_true_eq] at h
  unfold digitChar charToDigit
  have : 48 + (c.toNat - 48) = c.toNat := by omega
  rw [this, Char.ofNat_toNat]

theorem isAsciiDigit_digitChar {d : Nat} (h : d < 10) : isAsciiDigit (digitChar d) = true := by
  interval_cases d <;> decide

theorem natDigitsFixed_length (w n : Nat) : (natDigitsFixed w n).length = w := by
  induction w generalizing n with
  | zero => rfl
  | succ w ih => simp [natDigitsFixed, ih]

theorem natDigitsFixed_digits (w n : Nat) :
    ∀ c ∈ natDigitsFixed w n, isAsciiDigit c = true := by
  induction w generalizing n with
  | zero => intro c hc; simp [natDigitsFixed] at hc
  | succ w ih =>
    intro c hc
    simp only [natDigitsFixed, List.mem_append, List.mem_singleton] at hc
    rcases hc with hc | rfl
    · exact ih (n / 10) c hc
    · exact isAsciiDigit_digitChar (Nat.mod_lt _ (by omega))

theorem digitsVal_natDigitsFixed {w n : Nat} (h : n < 10 ^ w) :
    digitsVal (natDigitsFixed w n) = n := by
  induction w generalizing n with
  | zero =>
    have : n = 0 := by simpa using h
    simp [natDigitsFixed, digitsVal, this]
  | succ w ih =>
    have hdiv : n / 10 < 10 ^ w := by
      rw [Nat.div_lt_iff_lt_mul (by omega)]
      calc n < 10 ^ (w + 1) := h
        _ = 10 ^ w * 10 := by ring
    rw [natDigitsFixed, digitsVal_concat, ih hdiv,
      charToDigit_digitChar (Nat.mod_lt _ (by omega))]
    omega

theorem natDigitsFixed_digitsVal {cs : List Char}
    (h : ∀ c ∈ cs, isAsciiDigit c = true) :
    natDigitsFixed cs.length (digitsVal cs) = cs := by
  induction cs using List.reverseRecOn with
  | nil => rfl
  | append_singleton l c ih =>
    have hl : ∀ x ∈ l, isAsciiDigit x = true :=
      fun x hx => h x (List.mem_append_left _ hx)
    have hc : isAsciiDigit c = true := h c (List.mem_append_right _ (List.mem_singleton_self c))
    have hcd : charToDigit c < 10 := charToDigit_lt hc
    rw [digitsVal_concat, List.length_append, List.length_singleton, natDigitsFixed]
    have hdiv : (10 * digitsVal l + charToDigit c) / 10 = digitsVal l := by omega
    have hmod : (10 * digitsVal l + charToDigit c) % 10 = charToDigit c := by omega
    rw [hdiv, hmod, ih hl, digitChar_charToDigit hc]

theorem digitsVal_lt {cs : List Char} (h : ∀ c ∈ cs, isAsciiDigit c = true) :
    digitsVal cs < 10 ^ cs.length := by
  induction cs using List.reverseRecOn with
  | nil => simp [digitsVal]
  | append_singleton l c ih =>
    have hl : ∀ x ∈ l, isAsciiDigit x = true :=
      fun x hx => h x (List.mem_append_left _ hx)
    have hc : isAsciiDigit c = true := h c (List.mem_append_right _ (List.mem_singleton_self c))
    have hcd : charToDigit c < 10 := charToDigit_lt hc
    have := ih hl
    rw [digitsVal_concat, List.length_append, List.length_singleton, pow_succ]
    omega

theorem decimalLen_le {fuel n w : Nat} (hfuel : n ≤ fuel) (hw : 1 ≤ w)
    (h : n < 10 ^ w) : decimalLen fuel n ≤ w := by
  induction fuel generalizing n w with
  | zero => exact hw
  | succ fuel ih =>
    rw [decimalLen]
    split_ifs with h10
    · exact hw
    · have hw2 : 2 ≤ w := by
        by_contra hc
        have : w = 1 := by omega
        subst this
        simp at h
        omega
      have hdiv : n / 10 < 10 ^ (w - 1) := by
        rw [Nat.div_lt_iff_lt_mul (by omega)]
        calc n < 10 ^ w := h
          _ = 10 ^ (w - 1) * 10 := by
            rw [← pow_succ]
            congr 1
            omega
      have hfuel' : n / 10 ≤ fuel := by omega
      have := ih hfuel' (by omega) hdiv
      omega

theorem formatPad_eq {w n : Nat} (hw : 1 ≤ w) (h : n < 10 ^ w) :
    formatPad w n = natDigitsFixed w n := by
  unfold formatPad
  congr 1
  have := decimalLen_le (le_refl n) hw h
  omega

/-! ## UTF-8 byte-slicing lemmas -/

theorem one_le_charUtf8Size (c : Char) : 1 ≤ charUtf8Size c := by
  unfold charUtf8Size
  split_ifs <;> omega

theorem charUtf8Size_of_ascii {c : Char} (h : isAsciiDigit c = true) :
    charUtf8Size c = 1 := by
  simp only [isAsciiDigit, Bool.and_eq_true, decide_eq_true_eq] at h
  unfold charUtf8Size
  rw [if_pos (by omega)]

theorem utf8Len_nil : utf8Len [] = 0 := rfl

theorem utf8Len_cons (c : Char) (cs : List Char) :
    utf8Len (c :: cs) = charUtf8Size c + utf8Len cs := by
  simp [utf8Len]

theorem utf8Len_append (l₁ l₂ : List Char) :
    utf8Len (l₁ ++ l₂) = utf8Len l₁ + utf8Len l₂ := by
  simp [utf8Len]

theorem utf8Len_eq_zero {cs : List Char} (h : utf8Len cs = 0) : cs = [] := by
  cases cs with
  | nil => rfl
  | cons c cs =>
    rw [utf8Len_cons] at h
    have := one_le_charUtf8Size c
    omega

theorem utf8Len_eq_length {cs : List Char}
    (h : ∀ c ∈ cs, isAsciiDigit c = true) : utf8Len cs = cs.length := by
  induction cs with
  | nil => rfl
  | cons c cs ih =>
    rw [utf8Len_cons, charUtf8Size_of_ascii (h c (List.mem_cons_self c cs)),
      ih (fun x hx => h x (List.mem_cons_of_mem c hx)), List.length_cons]
    omega

theorem utf8TakeBytes_spec {cs : List Char} {n : Nat} {t : List Char}
    (h : utf8TakeBytes cs n = some t) : t <+: cs ∧ utf8Len t = n := by
  induction cs generalizing n t with
  | nil =>
    cases n with
    | zero =>
      simp only [utf8TakeBytes, Option.some.injEq] at h
      subst h
      exact ⟨List.nil_prefix, rfl⟩
    | succ n => simp [utf8TakeBytes] at h
  | cons c cs ih =>
    cases n with
    | zero =>
      simp only [utf8TakeBytes, Option.some.injEq] at h
      subst h
      exact ⟨List.nil_prefix, rfl⟩
    | succ n =>
      simp only [utf8TakeBytes] at h
      split_ifs at h with hsz
      · cases htk : utf8TakeBytes cs (n + 1 - charUtf8Size c) with
        | none => rw [htk] at h; simp at h
        | some t' =>
          rw [htk] at h
          simp only [Option.map_some', Option.some.injEq] at h
          subst h
          obtain ⟨hpre, hlen⟩ := ih htk
          refine ⟨(List.cons_prefix_cons).mpr ⟨rfl, hpre⟩, ?_⟩
          rw [utf8Len_cons, hlen]
          omega

theorem utf8DropBytes_spec {cs : List Char} {n : Nat} {r : List Char}
    (h : utf8DropBytes cs n = some r) : ∃ p, cs = p ++ r ∧ utf8Len p = n := by
  induction cs generalizing n r with
  | nil =>
    cases n with
    | zero =>
      simp only [utf8DropBytes, Option.some.injEq] at h
      subst h
      exact ⟨[], rfl, rfl⟩
    | succ n => simp [utf8DropBytes] at h
  | cons c cs ih =>
    cases n with
    | zero =>
      simp only [utf8DropBytes, Option.some.injEq] at h
      subst h
      exact ⟨[], rfl, rfl⟩
    | succ n =>
      simp only [utf8DropBytes] at h
      split_ifs at h with hsz
      · obtain ⟨p, hp, hplen⟩ := ih h
        refine ⟨c :: p, by rw [hp]; rfl, ?_⟩
        rw [utf8Len_cons, hplen]
        omega

theorem prefix_eq_of_utf8Len_eq {cs p q : List Char}
    (hp : p <+: cs) (hq : q <+: cs) (h : utf8Len p = utf8Len q) : p = q := by
  induction cs generalizing p q with
  | nil =>
    rw [List.prefix_nil] at hp hq
    rw [hp, hq]
  | cons c cs ih =>
    cases p with
    | nil =>
      cases q with
      | nil => rfl
      | cons b q' =>
        rw [utf8Len_nil, utf8Len_cons] at h
        have := one_le_charUtf8Size b
        omega
    | cons a p' =>
      cases q with
      | nil =>
        rw [utf8Len_nil, utf8Len_cons] at h
        have := one_le_charUtf8Size a
        omega
      | cons b q' =>
        obtain ⟨rfl, hp'⟩ := (List.cons_prefix_cons).mp hp
        obtain ⟨rfl, hq'⟩ := (List.cons_prefix_cons).mp hq
        rw [utf8Len_cons, utf8Len_cons] at h
        rw [ih hp' hq' (by omega)]

/-! ## Parsing-layer lemmas -/

theorem rustParseNat_some {bound : Nat} {cs : List Char} {v : Nat}
    (h : rustParseNat bound cs = some v) :
    cs ≠ [] ∧ (∀ c ∈ cs, isAsciiDigit c = true) ∧ digitsVal cs ≤ bound ∧ v = digitsVal cs := by
  unfold rustParseNat at h
  split_ifs at h with hc
  obtain ⟨h1, h2, h3⟩ := hc
  simp only [Option.some.injEq] at h
  exact ⟨h1, fun c hcm => List.all_eq_true.mp h2 c hcm, h3, h.symm⟩

theorem rustParseNat_of_digits {bound : Nat} {cs : List Char} (hne : cs ≠ [])
    (hd : ∀ c ∈ cs, isAsciiDigit c = true) (hb : digitsVal cs ≤ bound) :
    rustParseNat bound cs = some (digitsVal cs) := by
  unfold rustParseNat
  rw [if_pos ⟨hne, List.all_eq_true.mpr hd, hb⟩]

theorem regexDigit_of_ascii {c : Char} (h : isAsciiDigit c = true) :
    regexDigit c = true := by
  simp [regexDigit, h]

theorem tinCaptures_dashed_inv {s A G S : List Char}
    (h : tinCaptures s = some (.dashed A G S)) :
    s = A ++ '-' :: (G ++ '-' :: S) ∧ A.length = 3 ∧ G.length = 2 ∧ S.length = 4 ∧
      (∀ c ∈ A ++ (G ++ S), regexDigit c = true) := by
  unfold tinCaptures at h
  split at h
  case _ a1 a2 a3 d1 g1 g2 d2 s1 s2 s3 s4 =>
    split_ifs at h with hcond
    simp only [Bool.and_eq_true, beq_iff_eq] at hcond
    obtain ⟨⟨⟨⟨⟨⟨⟨⟨⟨⟨h1, h2⟩, h3⟩, hd1⟩, h4⟩, h5⟩, hd2⟩, h6⟩, h7⟩, h8⟩, h9⟩ := hcond
    simp only [Option.some.injEq, TinCaptures.dashed.injEq] at h
    obtain ⟨rfl, rfl, rfl⟩ := h
    subst hd1 hd2
    refine ⟨rfl, rfl, rfl, rfl, ?_⟩
    intro c hc
    simp only [List.mem_append, List.mem_cons, List.mem_singleton, List.not_mem_nil,
      or_false] at hc
    rcases hc with (rfl | rfl | rfl) | (rfl | rfl) | (rfl | rfl | rfl | rfl) <;> assumption
  case _ =>
    split_ifs at h with hcond
    simp at h

theorem tinCaptures_undashed_inv {s F : List Char}
    (h : tinCaptures s = some (.undashed F)) :
    F = s ∧ s.length = 9 ∧ ∀ c ∈ s, regexDigit c = true := by
  unfold tinCaptures at h
  split at h
  case _ a1 a2 a3 d1 g1 g2 d2 s1 s2 s3 s4 =>
    split_ifs at h
    simp at h
  case _ =>
    split_ifs at h with hcond
    simp only [Bool.and_eq_true, beq_iff_eq, List.all_eq_true] at hcond
    simp only [Option.some.injEq, TinCaptures.undashed.injEq] at h
    exact ⟨h.symm, hcond.1, hcond.2⟩

theorem list_length_eq_four {α : Type} {l : List α} :
    l.length = 4 ↔ ∃ a b c d, l = [a, b, c, d] := by
  constructor
  · intro h
    cases l with
    | nil => simp at h
    | cons x xs =>
      obtain ⟨b, c, d, rfl⟩ := List.length_eq_three.mp (by simpa using h)
      exact ⟨x, b, c, d, rfl⟩
  · rintro ⟨a, b, c, d, rfl⟩
    rfl

theorem tinCaptures_of_dashed {A G S : List Char}
    (hA : A.length = 3) (hG : G.length = 2) (hS : S.length = 4)
    (hd : ∀ c ∈ A ++ (G ++ S), regexDigit c = true) :
    tinCaptures (A ++ '-' :: (G ++ '-' :: S)) = some (.dashed A G S) := by
  obtain ⟨a1, a2, a3, rfl⟩ := List.length_eq_three.mp hA
  obtain ⟨g1, g2, rfl⟩ := List.length_eq_two.mp hG
  obtain ⟨s1, s2, s3, s4, rfl⟩ := list_length_eq_four.mp hS
  have h1 : regexDigit a1 = true := hd a1 (by simp)
  have h2 : regexDigit a2 = true := hd a2 (by simp)
  have h3 : regexDigit a3 = true := hd a3 (by simp)
  have h4 : regexDigit g1 = true := hd g1 (by simp)
  have h5 : regexDigit g2 = true := hd g2 (by simp)
  have h6 : regexDigit s1 = true := hd s1 (by simp)
  have h7 : regexDigit s2 = true := hd s2 (by simp)
  have h8 : regexDigit s3 = true := hd s3 (by simp)
  have h9 : regexDigit s4 = true := hd s4 (by simp)
  show tinCaptures [a1, a2, a3, '-', g1, g2, '-', s1, s2, s3, s4] = _
  simp [tinCaptures, h1, h2, h3, h4, h5, h6, h7, h8, h9]

theorem tinCaptures_of_undashed {s : List Char} (h9 : s.length = 9)
    (hd : ∀ c ∈ s, regexDigit c = true) : tinCaptures s = some (.undashed s) := by
  unfold tinCaptures
  split
  case _ a1 a2 a3 d1 g1 g2 d2 s1 s2 s3 s4 => simp at h9
  case _ =>
    have hc : (s.length == 9 && s.all regexDigit) = true := by
      simp [h9, List.all_eq_true.mpr hd]
    rw [if_pos hc]

theorem parse_components_eq_of_none {s : List Char} (h : tinCaptures s = none) :
    parse_components s = .err (.InvalidFormat s) := by
  unfold parse_components
  rw [h]

theorem parse_components_eq_of_dashed {s A G S : List Char}
    (h : tinCaptures s = some (.dashed A G S)) :
    parse_components s =
      match rustParseNat 65535 A, rustParseNat 255 G, rustParseNat 65535 S with
      | some av, some gv, some sv => .ok (av, gv, sv)
      | _, _, _ => .panic := by
  unfold parse_components
  rw [h]

theorem parse_components_eq_of_undashed {s F : List Char}
    (h : tinCaptures s = some (.undashed F)) :
    parse_components s =
      match utf8Slice F 0 3, utf8Slice F 3 5, utf8Slice F 5 9 with
      | some a, some g, some se =>
        match rustParseNat 65535 a, rustParseNat 255 g, rustParseNat 65535 se with
        | some av, some gv, some sv => .ok (av, gv, sv)
        | _, _, _ => .panic
      | _, _, _ => .panic := by
  unfold parse_components
  rw [h]

theorem parse_components_dashed_eq {A G S : List Char}
    (hA : A.length = 3) (hG : G.length = 2) (hS : S.length = 4)
    (hd : ∀ c ∈ A ++ (G ++ S), isAsciiDigit c = true) :
    parse_components (A ++ '-' :: (G ++ '-' :: S)) =
      .ok (digitsVal A, digitsVal G, digitsVal S) := by
  have hdA : ∀ c ∈ A, isAsciiDigit c = true := fun c hc => hd c (by simp [hc])
  have hdG : ∀ c ∈ G, isAsciiDigit c = true := fun c hc => hd c (by simp [hc])
  have hdS : ∀ c ∈ S, isAsciiDigit c = true := fun c hc => hd c (by simp [hc])
  have hAne : A ≠ [] := by rintro rfl; simp at hA
  have hGne : G ≠ [] := by rintro rfl; simp at hG
  have hSne : S ≠ [] := by rintro rfl; simp at hS
  have hAv : digitsVal A ≤ 65535 := by
    have := digitsVal_lt hdA
    rw [hA] at this
    omega
  have hGv : digitsVal G ≤ 255 := by
    have := digitsVal_lt hdG
    rw [hG] at this
    omega
  have hSv : digitsVal S ≤ 65535 := by
    have := digitsVal_lt hdS
    rw [hS] at this
    omega
  rw [parse_components_eq_of_dashed
      (tinCaptures_of_dashed hA hG hS (fun c hc => regexDigit_of_ascii (hd c hc))),
    rustParseNat_of_digits hAne hdA hAv, rustParseNat_of_digits hGne hdG hGv,
    rustParseNat_of_digits hSne hdS hSv]

theorem utf8DropBytes_zero (cs : List Char) : utf8DropBytes cs 0 = some cs := by
  cases cs <;> rfl

theorem utf8Slice_zero (cs : List Char) (b : Nat) :
    utf8Slice cs 0 b = utf8TakeBytes cs b := by
  simp [utf8Slice, utf8DropBytes_zero]

theorem parse_components_ok_inv {s : List Char} {a g se : Nat}
    (h : parse_components s = .ok (a, g, se)) :
    ∃ A G S : List Char,
      (∀ c ∈ A, isAsciiDigit c = true) ∧ (∀ c ∈ G, isAsciiDigit c = true) ∧
        (∀ c ∈ S, isAsciiDigit c = true) ∧
        A.length = 3 ∧ G.length = 2 ∧ S.length = 4 ∧
        digitsVal A = a ∧ digitsVal G = g ∧ digitsVal S = se ∧
        (s = A ++ '-' :: (G ++ '-' :: S) ∨ s = A ++ (G ++ S)) := by
  cases htc : tinCaptures s with
  | none =>
    rw [parse_components_eq_of_none htc] at h
    simp at h
  | some caps =>
    cases caps with
    | dashed A G S =>
      rw [parse_components_eq_of_dashed htc] at h
      obtain ⟨hs, hA, hG, hS, -⟩ := tinCaptures_dashed_inv htc
      cases hpa : rustParseNat 65535 A with
      | none => rw [hpa] at h; simp at h
      | some av =>
        cases hpg : rustParseNat 255 G with
        | none => rw [hpa, hpg] at h; simp at h
        | some gv =>
          cases hps : rustParseNat 65535 S with
          | none => rw [hpa, hpg, hps] at h; simp at h
          | some sv =>
            rw [hpa, hpg, hps] at h
            simp only [RustResult.ok.injEq, Prod.mk.injEq] at h
            obtain ⟨rfl, rfl, rfl⟩ := h
            obtain ⟨-, hdA, -, hvA⟩ := rustParseNat_some hpa
            obtain ⟨-, hdG, -, hvG⟩ := rustParseNat_some hpg
            obtain ⟨-, hdS, -, hvS⟩ := rustParseNat_some hps
            exact ⟨A, G, S, hdA, hdG, hdS, hA, hG, hS, hvA.symm, hvG.symm, hvS.symm,
              Or.inl hs⟩
    | undashed F =>
      rw [parse_components_eq_of_undashed htc] at h
      obtain ⟨rfl, hlen, hrd⟩ := tinCaptures_undashed_inv htc
      cases hs1 : utf8Slice F 0 3 with
      | none => rw [hs1] at h; simp at h
      | some A =>
        cases hs2 : utf8Slice F 3 5 with
        | none => rw [hs1, hs2] at h; simp at h
        | some G =>
          cases hs3 : utf8Slice F 5 9 with
          | none => rw [hs1, hs2, hs3] at h; simp at h
          | some S =>
            rw [hs1, hs2, hs3] at h
            dsimp only at h
            cases hpa : rustParseNat 65535 A with
            | none => rw [hpa] at h; simp at h
            | some av =>
              cases hpg : rustParseNat 255 G with
              | none => rw [hpa, hpg] at h; simp at h
              | some gv =>
                cases hps : rustParseNat 65535 S with
                | none => rw [hpa, hpg, hps] at h; simp at h
                | some sv =>
                  rw [hpa, hpg, hps] at h
                  simp only [RustResult.ok.injEq, Prod.mk.injEq] at h
                  obtain ⟨rfl, rfl, rfl⟩ := h
                  obtain ⟨-, hdA, -, hvA⟩ := rustParseNat_some hpa
                  obtain ⟨-, hdG, -, hvG⟩ := rustParseNat_some hpg
                  obtain ⟨-, hdS, -, hvS⟩ := rustParseNat_some hps
                  -- first slice: the first three characters
                  have htA : utf8TakeBytes F 3 = some A := by
                    rw [← utf8Slice_zero F 3]
                    exact hs1
                  obtain ⟨hApre, hAblen⟩ := utf8TakeBytes_spec htA
                  have hAlen : A.length = 3 := by
                    rw [← utf8Len_eq_length hdA, hAblen]
                  -- second slice
                  obtain ⟨r1, hdr1, htG⟩ : ∃ r, utf8DropBytes F 3 = some r ∧
                      utf8TakeBytes r 2 = some G := by
                    cases hdr : utf8DropBytes F 3 with
                    | none => rw [utf8Slice, hdr] at hs2; simp at hs2
                    | some r =>
                      rw [utf8Slice, hdr] at hs2
                      exact ⟨r, rfl, hs2⟩
                  obtain ⟨p1, hp1, hp1len⟩ := utf8DropBytes_spec hdr1
                  obtain ⟨hGpre, hGblen⟩ := utf8TakeBytes_spec htG
                  have hGlen : G.length = 2 := by
                    rw [← utf8Len_eq_length hdG, hGblen]
                  -- third slice
                  obtain ⟨r2, hdr2, htS⟩ : ∃ r, utf8DropBytes F 5 = some r ∧
                      utf8TakeBytes r 4 = some S := by
                    cases hdr : utf8DropBytes F 5 with
                    | none => rw [utf8Slice, hdr] at hs3; simp at hs3
                    | some r =>
                      rw [utf8Slice, hdr] at hs3
                      exact ⟨r, rfl, hs3⟩
                  obtain ⟨p2, hp2, hp2len⟩ := utf8DropBytes_spec hdr2
                  obtain ⟨hSpre, hSblen⟩ := utf8TakeBytes_spec htS
                  have hSlen : S.length = 4 := by
                    rw [← utf8Len_eq_length hdS, hSblen]
                  -- the byte prefixes coincide with the character groups
                  have hp1pre : p1 <+: F := by
                    rw [hp1]
                    exact List.prefix_append p1 r1
                  have hp1A : p1 = A :=
                    prefix_eq_of_utf8Len_eq hp1pre hApre (by rw [hp1len, hAblen])
                  have hFA : F = A ++ r1 := by rw [hp1, hp1A]
                  obtain ⟨t1, ht1⟩ := hGpre
                  have hFAG : F = (A ++ G) ++ t1 := by
                    rw [hFA, ← ht1, List.append_assoc]
                  have hAGpre : (A ++ G) <+: F := by
                    rw [hFAG]
                    exact List.prefix_append _ _
                  have hp2pre : p2 <+: F := by
                    rw [hp2]
                    exact List.prefix_append p2 r2
                  have hp2AG : p2 = A ++ G :=
                    prefix_eq_of_utf8Len_eq hp2pre hAGpre
                      (by rw [hp2len, utf8Len_append, hAblen, hGblen])
                  have hFr2 : F = (A ++ G) ++ r2 := by rw [hp2, hp2AG]
                  have hr2len : r2.length = 4 := by
                    have h1 := congrArg List.length hFr2
                    simp only [List.length_append] at h1
                    rw [hlen] at h1
                    omega
                  have hSr2 : S = r2 := hSpre.eq_of_length (by rw [hSlen, hr2len])
                  refine ⟨A, G, S, hdA, hdG, hdS, hAlen, hGlen, hSlen,
                    hvA.symm, hvG.symm, hvS.symm, Or.inr ?_⟩
                  rw [hFr2, hSr2, List.append_assoc]

theorem parse_components_ok_bounds {s : List Char} {a g se : Nat}
    (h : parse_components s = .ok (a, g, se)) : a ≤ 999 ∧ g ≤ 99 ∧ se ≤ 9999 := by
  obtain ⟨A, G, S, hdA, hdG, hdS, hA, hG, hS, hvA, hvG, hvS, -⟩ :=
    parse_components_ok_inv h
  have h1 := digitsVal_lt hdA
  have h2 := digitsVal_lt hdG
  have h3 := digitsVal_lt hdS
  rw [hA, hvA] at h1
  rw [hG, hvG] at h2
  rw [hS, hvS] at h3
  norm_num at h1 h2 h3
  omega

/-! ## Validator lemmas -/

theorem ssn_new_eq (a g s : Nat) :
    Ssn.new a g s =
      if a = 0 ∨ a = 666 ∨ 899 < a then .err (.InvalidArea a)
      else if g = 0 ∨ 99 < g then .err (.InvalidGroup g)
      else if s = 0 ∨ 9999 < s then .err (.InvalidSerial s)
      else .ok ⟨a, g, s⟩ := by
  unfold Ssn.new Ssn.validate
  split_ifs <;> rfl

theorem itin_new_eq (a g s : Nat) :
    Itin.new a g s =
      if ¬(900 ≤ a ∧ a ≤ 999) then .err (.InvalidArea a)
      else if ¬(is_valid_itin_group g = true) then .err (.InvalidGroup g)
      else if 9999 < s then .err (.InvalidSerial s)
      else .ok ⟨a, g, s⟩ := by
  unfold Itin.new Itin.validate
  split_ifs <;> rfl

theorem atin_new_eq (a g s : Nat) :
    Atin.new a g s =
      if ¬(900 ≤ a ∧ a ≤ 999) then .err (.InvalidArea a)
      else if g ≠ 93 then .err (.InvalidGroup g)
      else if 9999 < s then .err (.InvalidSerial s)
      else .ok ⟨a, g, s⟩ := by
  unfold Atin.new Atin.validate
  split_ifs <;> rfl

theorem itin_group_iff {g : Nat} : is_valid_itin_group g = true ↔ ItinGroupSet g := by
  simp only [is_valid_itin_group, ItinGroupSet, Bool.or_eq_true, Bool.and_eq_true,
    decide_eq_true_eq]
  tauto

theorem ssn_new_ok_of_ranges {a g s : Nat} (h : SsnRanges a g s) :
    Ssn.new a g s = .ok ⟨a, g, s⟩ := by
  rw [ssn_new_eq, if_neg (by omega), if_neg (by omega), if_neg (by omega)]

theorem ssn_new_ok_ranges {a g s : Nat} {v : Ssn} (h : Ssn.new a g s = .ok v) :
    SsnRanges a g s ∧ v = ⟨a, g, s⟩ := by
  rw [ssn_new_eq] at h
  split_ifs at h with h1 h2 h3
  simp only [RustResult.ok.injEq] at h
  exact ⟨⟨by omega, by omega, by omega⟩, h.symm⟩

theorem itin_new_ok_of_ranges {a g s : Nat} (h : ItinRanges a g s) :
    Itin.new a g s = .ok ⟨a, g, s⟩ := by
  obtain ⟨h1, h2, h3⟩ := h
  rw [itin_new_eq, if_neg (by omega), if_neg (by rw [not_not, itin_group_iff]; exact h2),
    if_neg (by omega)]

theorem itin_new_ok_ranges {a g s : Nat} {v : Itin} (h : Itin.new a g s = .ok v) :
    ItinRanges a g s ∧ v = ⟨a, g, s⟩ := by
  rw [itin_new_eq] at h
  split_ifs at h with h1 h2 h3
  simp only [RustResult.ok.injEq] at h
  exact ⟨⟨by omega, itin_group_iff.mp h2, by omega⟩, h.symm⟩

theorem atin_new_ok_of_ranges {a g s : Nat} (h : AtinRanges a g s) :
    Atin.new a g s = .ok ⟨a, g, s⟩ := by
  obtain ⟨h1, h2, h3⟩ := h
  rw [atin_new_eq, if_neg (by omega), if_neg (by omega), if_neg (by omega)]

theorem atin_new_ok_ranges {a g s : Nat} {v : Atin} (h : Atin.new a g s = .ok v) :
    AtinRanges a g s ∧ v = ⟨a, g, s⟩ := by
  rw [atin_new_eq] at h
  split_ifs at h with h1 h2 h3
  simp only [RustResult.ok.injEq] at h
  exact ⟨⟨by omega, by omega, by omega⟩, h.symm⟩

/-! ## Dispatcher and rendering lemmas -/

theorem tin_from_str_eq_of_parse {s : List Char} {a g se : Nat}
    (h : parse_components s = .ok (a, g, se)) :
    Tin.from_str s =
      (if (1 ≤ a ∧ a ≤ 665) ∨ (667 ≤ a ∧ a ≤ 899) then
        match Ssn.new a g se with
        | .ok v => .ok (.Ssn v)
        | .err e => .err e
        | .panic => .panic
      else if (900 ≤ a ∧ a ≤ 999) ∧ g = 93 then
        match Atin.new a g se with
        | .ok v => .ok (.Atin v)
        | .err e => .err e
        | .panic => .panic
      else if (900 ≤ a ∧ a ≤ 999) ∧ is_valid_itin_group g = true then
        match Itin.new a g se with
        | .ok v => .ok (.Itin v)
        | .err e => .err e
        | .panic => .panic
      else if a = 0 ∨ a = 666 then .err (.InvalidArea a)
      else .err (.InvalidGroup g)) := by
  unfold Tin.from_str
  rw [h]

theorem tin_from_str_ok_inv {s : List Char} {t : Tin} (h : Tin.from_str s = .ok t) :
    ∃ a g se, parse_components s = .ok (a, g, se) ∧
      ((∃ v, t = .Ssn v ∧ Ssn.new a g se = .ok v) ∨
        (∃ v, t = .Atin v ∧ Atin.new a g se = .ok v) ∨
        (∃ v, t = .Itin v ∧ Itin.new a g se = .ok v)) := by
  cases hp : parse_components s with
  | err e => unfold Tin.from_str at h; rw [hp] at h; simp at h
  | panic => unfold Tin.from_str at h; rw [hp] at h; simp at h
  | ok trip =>
    obtain ⟨a, g, se⟩ := trip
    rw [tin_from_str_eq_of_parse hp] at h
    refine ⟨a, g, se, rfl, ?_⟩
    split_ifs at h with h1 h2 h3
    · cases hn : Ssn.new a g se with
      | ok v =>
        rw [hn] at h
        simp only [RustResult.ok.injEq] at h
        exact Or.inl ⟨v, h.symm, rfl⟩
      | err e => rw [hn] at h; simp at h
      | panic => rw [hn] at h; simp at h
    · cases hn : Atin.new a g se with
      | ok v =>
        rw [hn] at h
        simp only [RustResult.ok.injEq] at h
        exact Or.inr (Or.inl ⟨v, h.symm, rfl⟩)
      | err e => rw [hn] at h; simp at h
      | panic => rw [hn] at h; simp at h
    · cases hn : Itin.new a g se with
      | ok v =>
        rw [hn] at h
        simp only [RustResult.ok.injEq] at h
        exact Or.inr (Or.inr ⟨v, h.symm, rfl⟩)
      | err e => rw [hn] at h; simp at h
      | panic => rw [hn] at h; simp at h

theorem formatPad_of_digits {w n : Nat} (hw : 1 ≤ w) (h : n < 10 ^ w) :
    (∀ c ∈ formatPad w n, isAsciiDigit c = true) ∧ (formatPad w n).length = w ∧
      digitsVal (formatPad w n) = n := by
  rw [formatPad_eq hw h]
  exact ⟨natDigitsFixed_digits w n, natDigitsFixed_length w n, digitsVal_natDigitsFixed h⟩

theorem parse_display_triple {a g se : Nat} (ha : a ≤ 999) (hg : g ≤ 99) (hs : se ≤ 9999) :
    parse_components
        (formatPad 3 a ++ '-' :: (formatPad 2 g ++ '-' :: formatPad 4 se)) =
      .ok (a, g, se) := by
  obtain ⟨hdA, hlA, hvA⟩ := formatPad_of_digits (by omega) (show a < 10 ^ 3 by norm_num; omega)
  obtain ⟨hdG, hlG, hvG⟩ := formatPad_of_digits (by omega) (show g < 10 ^ 2 by norm_num; omega)
  obtain ⟨hdS, hlS, hvS⟩ := formatPad_of_digits (by omega) (show se < 10 ^ 4 by norm_num; omega)
  rw [parse_components_dashed_eq hlA hlG hlS ?_, hvA, hvG, hvS]
  intro c hc
  simp only [List.mem_append] at hc
  rcases hc with hc | hc | hc
  · exact hdA c hc
  · exact hdG c hc
  · exact hdS c hc

theorem display_eq_normalize {s : List Char} {a g se : Nat}
    (hp : parse_components s = .ok (a, g, se)) :
    formatPad 3 a ++ '-' :: (formatPad 2 g ++ '-' :: formatPad 4 se) =
      normalizeDashed s := by
  obtain ⟨A, G, S, hdA, hdG, hdS, hA, hG, hS, hvA, hvG, hvS, hshape⟩ :=
    parse_components_ok_inv hp
  have hfA : formatPad 3 a = A := by
    have hlt := digitsVal_lt hdA
    rw [hA] at hlt
    rw [← hvA, formatPad_eq (by omega) hlt]
    have := natDigitsFixed_digitsVal hdA
    rw [hA] at this
    exact this
  have hfG : formatPad 2 g = G := by
    have hlt := digitsVal_lt hdG
    rw [hG] at hlt
    rw [← hvG, formatPad_eq (by omega) hlt]
    have := natDigitsFixed_digitsVal hdG
    rw [hG] at this
    exact this
  have hfS : formatPad 4 se = S := by
    have hlt := digitsVal_lt hdS
    rw [hS] at hlt
    rw [← hvS, formatPad_eq (by omega) hlt]
    have := natDigitsFixed_digitsVal hdS
    rw [hS] at this
    exact this
  rcases hshape with rfl | rfl
  · rw [normalizeDashed, if_neg (by simp [hA, hG, hS])]
    rw [hfA, hfG, hfS]
  · rw [normalizeDashed, if_pos (by simp [hA, hG, hS])]
    have t1 : (A ++ (G ++ S)).take 3 = A := by
      rw [← hA]
      exact List.take_left A (G ++ S)
    have t2 : (A ++ (G ++ S)).drop 3 = G ++ S := by
      rw [← hA]
      exact List.drop_left A (G ++ S)
    have t3 : (G ++ S).take 2 = G := by
      rw [← hG]
      exact List.take_left G S
    have t5 : (A ++ (G ++ S)).drop 5 = S := by
      rw [← List.append_assoc]
      have h5 : (A ++ G).length = 5 := by simp [hA, hG]
      rw [← h5]
      exact List.drop_left (A ++ G) S
    rw [t1, t2, t3, t5, hfA, hfG, hfS]

theorem ssn_from_str_ok_inv {s : List Char} {v : Ssn} (h : Ssn.from_str s = .ok v) :
    ∃ a g se, Ssn.new a g se = .ok v := by
  unfold Ssn.from_str at h
  cases hp : parse_components s with
  | ok trip =>
    obtain ⟨a, g, se⟩ := trip
    rw [hp] at h
    exact ⟨a, g, se, h⟩
  | err e => rw [hp] at h; simp at h
  | panic => rw [hp] at h; simp at h

theorem itin_from_str_ok_inv {s : List Char} {v : Itin} (h : Itin.from_str s = .ok v) :
    ∃ a g se, Itin.new a g se = .ok v := by
  unfold Itin.from_str at h
  cases hp : parse_components s with
  | ok trip =>
    obtain ⟨a, g, se⟩ := trip
    rw [hp] at h
    exact ⟨a, g, se, h⟩
  | err e => rw [hp] at h; simp at h
  | panic => rw [hp] at h; simp at h

theorem atin_from_str_ok_inv {s : List Char} {v : Atin} (h : Atin.from_str s = .ok v) :
    ∃ a g se, Atin.new a g se = .ok v := by
  unfold Atin.from_str at h
  cases hp : parse_components s with
  | ok trip =>
    obtain ⟨a, g, se⟩ := trip
    rw [hp] at h
    exact ⟨a, g, se, h⟩
  | err e => rw [hp] at h; simp at h
  | panic => rw [hp] at h; simp at h

/-! ## Claim theorems -/

/-- Claim C3: for every triple of unsigned integers, `Ssn::new` succeeds
iff area is in 1-665 or 667-899, group in 1-99 and serial in 1-9999; on
success the value's accessors return exactly the given triple. -/
theorem ssn_new_ok_iff_ranges (a g s : Nat) :
    (Ssn.new a g s = .ok ⟨a, g, s⟩ ↔
      ((1 ≤ a ∧ a ≤ 665) ∨ (667 ≤ a ∧ a ≤ 899)) ∧
        (1 ≤ g ∧ g ≤ 99) ∧ (1 ≤ s ∧ s ≤ 9999)) ∧
      ∀ v, Ssn.new a g s = .ok v → v.area = a ∧ v.group = g ∧ v.serial = s := by
  constructor
  · constructor
    · intro h
      exact (ssn_new_ok_ranges h).1
    · intro h
      exact ssn_new_ok_of_ranges h
  · intro v h
    obtain ⟨-, rfl⟩ := ssn_new_ok_ranges h
    exact ⟨rfl, rfl, rfl⟩

theorem ssn_new_ok_iff_ranges_witness :
    Ssn.new 123 45 6789 = .ok ⟨123, 45, 6789⟩ ∧
      (Ssn.area ⟨123, 45, 6789⟩ = 123 ∧ Ssn.group ⟨123, 45, 6789⟩ = 45 ∧
        Ssn.serial ⟨123, 45, 6789⟩ = 6789) :=
  ⟨((ssn_new_ok_iff_ranges 123 45 6789).1).mpr (by omega),
    (ssn_new_ok_iff_ranges 123 45 6789).2 ⟨123, 45, 6789⟩
      (((ssn_new_ok_iff_ranges 123 45 6789).1).mpr (by omega))⟩

/-- Claim C4: for every triple of unsigned integers, `Itin::new` succeeds
iff area is in 900-999, group is in 50-65, 70-88, 90-92 or 94-99, and
serial is in 0-9999; in particular serial 0 is accepted. -/
theorem itin_new_ok_iff_ranges (a g s : Nat) :
    (Itin.new a g s = .ok ⟨a, g, s⟩ ↔
      (900 ≤ a ∧ a ≤ 999) ∧
        ((50 ≤ g ∧ g ≤ 65) ∨ (70 ≤ g ∧ g ≤ 88) ∨ (90 ≤ g ∧ g ≤ 92) ∨
          (94 ≤ g ∧ g ≤ 99)) ∧ s ≤ 9999) ∧
      ∀ v, Itin.new a g s = .ok v → v.area = a ∧ v.group = g ∧ v.serial = s := by
  constructor
  · constructor
    · intro h
      exact (itin_new_ok_ranges h).1
    · intro h
      exact itin_new_ok_of_ranges h
  · intro v h
    obtain ⟨-, rfl⟩ := itin_new_ok_ranges h
    exact ⟨rfl, rfl, rfl⟩

theorem itin_new_ok_iff_ranges_witness :
    Itin.new 900 70 0 = .ok ⟨900, 70, 0⟩ :=
  ((itin_new_ok_iff_ranges 900 70 0).1).mpr (by omega)

/-- Claim C5: for every triple of unsigned integers, `Atin::new` succeeds
iff area is in 900-999, group is exactly 93, and serial is in 0-9999; in
particular serial 0 is accepted. -/
theorem atin_new_ok_iff_ranges (a g s : Nat) :
    (Atin.new a g s = .ok ⟨a, g, s⟩ ↔
      (900 ≤ a ∧ a ≤ 999) ∧ g = 93 ∧ s ≤ 9999) ∧
      ∀ v, Atin.new a g s = .ok v → v.area = a ∧ v.group = g ∧ v.serial = s := by
  constructor
  · constructor
    · intro h
      exact (atin_new_ok_ranges h).1
    · intro h
      exact atin_new_ok_of_ranges h
  · intro v h
    obtain ⟨-, rfl⟩ := atin_new_ok_ranges h
    exact ⟨rfl, rfl, rfl⟩

theorem atin_new_ok_iff_ranges_witness :
    Atin.new 900 93 0 = .ok ⟨900, 93, 0⟩ :=
  ((atin_new_ok_iff_ranges 900 93 0).1).mpr (by omega)

/-- Claim C8: each of the three validators checks area, then group, then
serial, in that order, short-circuiting on the first violation: whenever a
field is out of range, the rejection names the first checked invalid field
and carries its value, regardless of later fields. -/
theorem validators_short_circuit (a g s : Nat) :
    (¬((1 ≤ a ∧ a ≤ 665) ∨ (667 ≤ a ∧ a ≤ 899)) →
        Ssn.new a g s = .err (.InvalidArea a)) ∧
      (((1 ≤ a ∧ a ≤ 665) ∨ (667 ≤ a ∧ a ≤ 899)) → ¬(1 ≤ g ∧ g ≤ 99) →
        Ssn.new a g s = .err (.InvalidGroup g)) ∧
      (((1 ≤ a ∧ a ≤ 665) ∨ (667 ≤ a ∧ a ≤ 899)) → (1 ≤ g ∧ g ≤ 99) →
        ¬(1 ≤ s ∧ s ≤ 9999) → Ssn.new a g s = .err (.InvalidSerial s)) ∧
      (¬(900 ≤ a ∧ a ≤ 999) → Itin.new a g s = .err (.InvalidArea a)) ∧
      ((900 ≤ a ∧ a ≤ 999) → ¬ItinGroupSet g →
        Itin.new a g s = .err (.InvalidGroup g)) ∧
      ((900 ≤ a ∧ a ≤ 999) → ItinGroupSet g → ¬(s ≤ 9999) →
        Itin.new a g s = .err (.InvalidSerial s)) ∧
      (¬(900 ≤ a ∧ a ≤ 999) → Atin.new a g s = .err (.InvalidArea a)) ∧
      ((900 ≤ a ∧ a ≤ 999) → g ≠ 93 → Atin.new a g s = .err (.InvalidGroup g)) ∧
      ((900 ≤ a ∧ a ≤ 999) → g = 93 → ¬(s ≤ 9999) →
        Atin.new a g s = .err (.InvalidSerial s)) := by
  refine ⟨?_, ?_, ?_, ?_, ?_, ?_, ?_, ?_, ?_⟩
  · intro h1
    rw [ssn_new_eq, if_pos (by omega)]
  · intro h1 h2
    rw [ssn_new_eq, if_neg (by omega), if_pos (by omega)]
  · intro h1 h2 h3
    rw [ssn_new_eq, if_neg (by omega), if_neg (by omega), if_pos (by omega)]
  · intro h1
    rw [itin_new_eq, if_pos h1]
  · intro h1 h2
    rw [itin_new_eq, if_neg (by omega), if_pos (by rw [itin_group_iff]; exact h2)]
  · intro h1 h2 h3
    rw [itin_new_eq, if_neg (by omega),
      if_neg (by rw [not_not, itin_group_iff]; exact h2), if_pos (by omega)]
  · intro h1
    rw [atin_new_eq, if_pos h1]
  · intro h1 h2
    rw [atin_new_eq, if_neg (by omega), if_pos h2]
  · intro h1 h2 h3
    rw [atin_new_eq, if_neg (by omega), if_neg (by omega), if_pos (by omega)]

theorem validators_short_circuit_witness :
    Ssn.new 0 0 0 = .err (.InvalidArea 0) ∧
      Ssn.new 123 0 0 = .err (.InvalidGroup 0) ∧
      Ssn.new 123 45 0 = .err (.InvalidSerial 0) ∧
      Itin.new 0 0 10000 = .err (.InvalidArea 0) ∧
      Itin.new 900 93 10000 = .err (.InvalidGroup 93) ∧
      Itin.new 900 70 10000 = .err (.InvalidSerial 10000) ∧
      Atin.new 0 0 10000 = .err (.InvalidArea 0) ∧
      Atin.new 900 70 10000 = .err (.InvalidGroup 70) ∧
      Atin.new 900 93 10000 = .err (.InvalidSerial 10000) :=
  ⟨(validators_short_circuit 0 0 0).1 (by omega),
    (validators_short_circuit 123 0 0).2.1 (by omega) (by omega),
    (validators_short_circuit 123 45 0).2.2.1 (by omega) (by omega) (by omega),
    (validators_short_circuit 0 0 10000).2.2.2.1 (by omega),
    (validators_short_circuit 900 93 10000).2.2.2.2.1 (by omega)
      (by simp only [ItinGroupSet]; omega),
    (validators_short_circuit 900 70 10000).2.2.2.2.2.1 (by omega)
      (by simp only [ItinGroupSet]; omega) (by omega),
    (validators_short_circuit 0 0 10000).2.2.2.2.2.2.1 (by omega),
    (validators_short_circuit 900 70 10000).2.2.2.2.2.2.2.1 (by omega) (by omega),
    (validators_short_circuit 900 93 10000).2.2.2.2.2.2.2.2 (by omega) (by omega)
      (by omega)⟩

/-- Claim C9 (counterexample): an SSN with fields (123, 45, 6789) does not
mask to the bare string `XXX-XX-6789`; the Debug rendering wraps the type
name around the masked core. -/
theorem masked_debug_differs_from_bare_mask :
    Ssn.debug ⟨123, 45, 6789⟩ ≠ "XXX-XX-6789".data := by decide

/-- Claim C9 (amended): for every validated value the masked (Debug)
rendering is the type name wrapping the masked core — `Ssn(XXX-XX-SSSS)`,
`Itin(XXX-XX-SSSS)` or `Atin(XXX-XX-SSSS)` — with `SSSS` the value's real
serial digits zero-padded to four places and the area and group redacted. -/
theorem masked_debug_wraps_type_name (v : Ssn) (w : Itin) (u : Atin)
    (hv : v.serial ≤ 9999) (hw : w.serial ≤ 9999) (hu : u.serial ≤ 9999) :
    Ssn.debug v = "Ssn(XXX-XX-".data ++ (natDigitsFixed 4 v.serial ++ ")".data) ∧
      Itin.debug w = "Itin(XXX-XX-".data ++ (natDigitsFixed 4 w.serial ++ ")".data) ∧
      Atin.debug u = "Atin(XXX-XX-".data ++ (natDigitsFixed 4 u.serial ++ ")".data) := by
  refine ⟨?_, ?_, ?_⟩
  · unfold Ssn.debug
    rw [formatPad_eq (by omega) (Nat.lt_of_le_of_lt hv (by norm_num))]
  · unfold Itin.debug
    rw [formatPad_eq (by omega) (Nat.lt_of_le_of_lt hw (by norm_num))]
  · unfold Atin.debug
    rw [formatPad_eq (by omega) (Nat.lt_of_le_of_lt hu (by norm_num))]

theorem masked_debug_wraps_type_name_witness :
    Ssn.debug ⟨123, 45, 6789⟩ =
      "Ssn(XXX-XX-".data ++ (natDigitsFixed 4 6789 ++ ")".data) :=
  (masked_debug_wraps_type_name ⟨123, 45, 6789⟩ ⟨900, 70, 1234⟩ ⟨900, 93, 5678⟩
    (by decide) (by decide) (by decide)).1

/-- Claim C10: the masked (Debug) rendering depends only on the type and
the serial field: two values of the same TIN type with equal serials render
to identical strings, whatever their area and group fields. -/
theorem masked_debug_depends_only_on_serial (v v' : Ssn) (w w' : Itin) (u u' : Atin) :
    (v.serial = v'.serial → Ssn.debug v = Ssn.debug v') ∧
      (w.serial = w'.serial → Itin.debug w = Itin.debug w') ∧
      (u.serial = u'.serial → Atin.debug u = Atin.debug u') := by
  refine ⟨fun h => ?_, fun h => ?_, fun h => ?_⟩
  · unfold Ssn.debug
    rw [h]
  · unfold Itin.debug
    rw [h]
  · unfold Atin.debug
    rw [h]

theorem masked_debug_depends_only_on_serial_witness :
    Ssn.debug ⟨123, 45, 6789⟩ = Ssn.debug ⟨667, 1, 6789⟩ :=
  (masked_debug_depends_only_on_serial ⟨123, 45, 6789⟩ ⟨667, 1, 6789⟩
    ⟨900, 70, 1⟩ ⟨900, 70, 1⟩ ⟨900, 93, 2⟩ ⟨900, 93, 2⟩).1 rfl

/-- Claim C6: every value obtainable through the public surface — the three
`new` constructors, the three `FromStr` impls, and the values wrapped in a
`Tin` returned by the dispatcher — satisfies its own type's range rules of
the spec's table (§4). -/
theorem validated_values_in_range :
    (∀ a g s v, Ssn.new a g s = .ok v → SsnRanges v.area v.group v.serial) ∧
      (∀ a g s v, Itin.new a g s = .ok v → ItinRanges v.area v.group v.serial) ∧
      (∀ a g s v, Atin.new a g s = .ok v → AtinRanges v.area v.group v.serial) ∧
      (∀ s v, Ssn.from_str s = .ok v → SsnRanges v.area v.group v.serial) ∧
      (∀ s v, Itin.from_str s = .ok v → ItinRanges v.area v.group v.serial) ∧
      (∀ s v, Atin.from_str s = .ok v → AtinRanges v.area v.group v.serial) ∧
      (∀ s t, Tin.from_str s = .ok t →
        match t with
        | .Ssn v => SsnRanges v.area v.group v.serial
        | .Itin v => ItinRanges v.area v.group v.serial
        | .Atin v => AtinRanges v.area v.group v.serial) := by
  have hssn : ∀ a g s v, Ssn.new a g s = .ok v → SsnRanges v.area v.group v.serial := by
    intro a g s v h
    obtain ⟨hr, rfl⟩ := ssn_new_ok_ranges h
    exact hr
  have hitin : ∀ a g s v, Itin.new a g s = .ok v → ItinRanges v.area v.group v.serial := by
    intro a g s v h
    obtain ⟨hr, rfl⟩ := itin_new_ok_ranges h
    exact hr
  have hatin : ∀ a g s v, Atin.new a g s = .ok v → AtinRanges v.area v.group v.serial := by
    intro a g s v h
    obtain ⟨hr, rfl⟩ := atin_new_ok_ranges h
    exact hr
  refine ⟨hssn, hitin, hatin, ?_, ?_, ?_, ?_⟩
  · intro s v h
    obtain ⟨a, g, se, hn⟩ := ssn_from_str_ok_inv h
    exact hssn a g se v hn
  · intro s v h
    obtain ⟨a, g, se, hn⟩ := itin_from_str_ok_inv h
    exact hitin a g se v hn
  · intro s v h
    obtain ⟨a, g, se, hn⟩ := atin_from_str_ok_inv h
    exact hatin a g se v hn
  · intro s t h
    obtain ⟨a, g, se, -, hcase⟩ := tin_from_str_ok_inv h
    rcases hcase with ⟨v, rfl, hn⟩ | ⟨v, rfl, hn⟩ | ⟨v, rfl, hn⟩
    · exact hssn a g se v hn
    · exact hatin a g se v hn
    · exact hitin a g se v hn

theorem validated_values_in_range_witness :
    SsnRanges (Ssn.area ⟨123, 45, 6789⟩) (Ssn.group ⟨123, 45, 6789⟩)
      (Ssn.serial ⟨123, 45, 6789⟩) :=
  validated_values_in_range.1 123 45 6789 ⟨123, 45, 6789⟩ (by decide)

/-- Claim C2 (code bug): on the dashed input whose area field is written
with the Arabic-Indic digits U+0660 U+0660 U+0661, the regex `\d{3}`
matches (in the crate's default Unicode mode `\d` is any Unicode decimal
digit), `str::parse::<u16>` then rejects the non-ASCII digits, and the
`.expect` aborts: `parse_components` panics instead of returning the
malformed-format error, contradicting its own expect message ("as enforced
by TIN_PATTERN"). -/
theorem parse_components_panics_on_unicode_digits :
    parse_components unicodeDigitInput = .panic := by decide

/-- Claim C1: for every input string accepted by the format extractor, the
auto-detect dispatcher `Tin::from_str` selects a type by the stated
precedence over the extracted triple: SSN for area 1-665 or 667-899
(returning that validator's result as-is, success tagged `Ssn`); else ATIN
for area 900-999 with group exactly 93; else ITIN for area 900-999 with a
group in 50-65, 70-88, 90-92 or 94-99; otherwise area-invalid when area is
0 or 666, and group-invalid (carrying the group) in every remaining case. -/
theorem tin_from_str_dispatch_precedence (s : List Char) (a g se : Nat)
    (h : parse_components s = .ok (a, g, se)) :
    Tin.from_str s =
      (if (1 ≤ a ∧ a ≤ 665) ∨ (667 ≤ a ∧ a ≤ 899) then
        match Ssn.new a g se with
        | .ok v => .ok (.Ssn v)
        | .err e => .err e
        | .panic => .panic
      else if (900 ≤ a ∧ a ≤ 999) ∧ g = 93 then
        match Atin.new a g se with
        | .ok v => .ok (.Atin v)
        | .err e => .err e
        | .panic => .panic
      else if (900 ≤ a ∧ a ≤ 999) ∧
          ((50 ≤ g ∧ g ≤ 65) ∨ (70 ≤ g ∧ g ≤ 88) ∨ (90 ≤ g ∧ g ≤ 92) ∨
            (94 ≤ g ∧ g ≤ 99)) then
        match Itin.new a g se with
        | .ok v => .ok (.Itin v)
        | .err e => .err e
        | .panic => .panic
      else if a = 0 ∨ a = 666 then .err (.InvalidArea a)
      else .err (.InvalidGroup g)) := by
  rw [tin_from_str_eq_of_parse h]
  simp only [itin_group_iff]

theorem tin_from_str_dispatch_precedence_witness :
    parse_components ("900-10-1234".data) = .ok (900, 10, 1234) ∧
      Tin.from_str ("900-10-1234".data) = .err (.InvalidGroup 10) :=
  ⟨by decide,
    (tin_from_str_dispatch_precedence ("900-10-1234".data) 900 10 1234
      (by decide)).trans (by decide)⟩

/-- Claim C7: for every valid SSN field triple, construction succeeds and
the canonical rendering round-trips (parsing the rendered `AAA-GG-SSSS`
string reproduces the identical triple); and for every input accepted by
the auto-detect parser, rendering the parsed value equals the input
normalized to the dashed canonical form. -/
theorem render_parse_round_trip :
    (∀ a g se : Nat, SsnRanges a g se →
      Ssn.new a g se = .ok ⟨a, g, se⟩ ∧
        parse_components (Ssn.display ⟨a, g, se⟩) = .ok (a, g, se)) ∧
      ∀ (s : List Char) (t : Tin), Tin.from_str s = .ok t →
        Tin.display t = normalizeDashed s := by
  constructor
  · intro a g se h
    refine ⟨ssn_new_ok_of_ranges h, ?_⟩
    show parse_components
        (formatPad 3 a ++ '-' :: (formatPad 2 g ++ '-' :: formatPad 4 se)) = _
    obtain ⟨ha, hg, hs⟩ := h
    exact parse_display_triple (by omega) (by omega) (by omega)
  · intro s t h
    obtain ⟨a, g, se, hp, hcase⟩ := tin_from_str_ok_inv h
    have hdisp : Tin.display t =
        formatPad 3 a ++ '-' :: (formatPad 2 g ++ '-' :: formatPad 4 se) := by
      rcases hcase with ⟨v, rfl, hn⟩ | ⟨v, rfl, hn⟩ | ⟨v, rfl, hn⟩
      · obtain ⟨-, rfl⟩ := ssn_new_ok_ranges hn
        rfl
      · obtain ⟨-, rfl⟩ := atin_new_ok_ranges hn
        rfl
      · obtain ⟨-, rfl⟩ := itin_new_ok_ranges hn
        rfl
    rw [hdisp, display_eq_normalize hp]

theorem render_parse_round_trip_witness :
    parse_components (Ssn.display ⟨123, 45, 6789⟩) = .ok (123, 45, 6789) ∧
      Tin.display (.Ssn ⟨123, 45, 6789⟩) = normalizeDashed ("123456789".data) :=
  ⟨(render_parse_round_trip.1 123 45 6789 (by simp only [SsnRanges]; omega)).2,
    render_parse_round_trip.2 ("123456789".data) (.Ssn ⟨123, 45, 6789⟩) (by decide)⟩
